import Mathlib

/-!
# Trading ledger of `src/server.js`

A shallow embedding of the two trade handlers of `src/server.js`
(`POST /api/transaction/buy`, lines 262-327, and `POST /api/transaction/sell`,
lines 329-405) together with the part of the SQL store they touch.

Modelling conventions.

* The store is the three tables the handlers read and write.  `users` and
  `cryptocurrencies` are keyed by their `id` column, so `WHERE id = ?` yields at
  most one row; `transactions` is the list of rows in insertion order.  Columns
  that no trade handler reads (`name`, `email`, `symbol`, `created_at`, ...) are
  left out.
* A finite JavaScript number is the rational it denotes, and every JavaScript
  operation of the handlers rounds its exact result to the nearest double, ties
  to even (`roundDouble`): the product of line 276 and of line 357, the
  difference of line 288, and the conversion of a column value to a number
  (`parseFloat` of line 283, the coercion of `crypto.current_price` in a
  product).  Comparisons of numbers are exact.  Results beyond the largest
  finite double (`Infinity`) and `NaN` are outside the model.
* A column holds the value written to it: the schema is not part of the source,
  so the scale of the decimal columns is not modelled.  Arithmetic done by the
  SQL engine (`balance + ?`, `SUM`) is exact.
* Every storage call of a handler can fail; which calls fail is given by a
  `Faults` record, one flag per call site.  `db.rollback` restores the tables
  captured at `db.beginTransaction`; the auto-increment counter is not restored.
* A handler is a function from the store to the HTTP response and the store
  after the request has run to completion.
-/

namespace CryptoLedger

/-! ## Data model -/

/-- Column `transactions.type`. -/
inductive TxType
  | buy
  | sell
  deriving DecidableEq, Repr

/-- A row of `users` (the `balance` column; the key is the `id`). -/
structure UserRow where
  balance : ℚ
  deriving DecidableEq, Repr

/-- A row of `cryptocurrencies` (the `current_price` column; the key is the `id`). -/
structure CryptoRow where
  current_price : ℚ
  deriving DecidableEq, Repr

/-- A row of `transactions`, as written by the two `INSERT` statements. -/
structure Transaction where
  id : Nat
  user_id : Nat
  crypto_id : Nat
  type : TxType
  amount : ℚ
  price : ℚ
  total : ℚ
  deriving DecidableEq, Repr

/-- The store: the three tables and the auto-increment counter of `transactions`. -/
structure DB where
  users : Nat → Option UserRow
  cryptocurrencies : Nat → Option CryptoRow
  transactions : List Transaction
  autoIncrement : Nat

/-- The JSON bodies the two handlers send. -/
inductive Body
  /-- Body `{ error: 'Datos inválidos' }`. -/
  | datosInvalidos
  /-- Body `{ error: 'Criptomoneda no encontrada' }`. -/
  | criptomonedaNoEncontrada
  /-- Body `{ error: 'Usuario no encontrado' }`. -/
  | usuarioNoEncontrado
  /-- Body `{ error: 'Saldo insuficiente' }`. -/
  | saldoInsuficiente
  /-- Body `{ error: 'No tienes suficiente cantidad de esta criptomoneda' }`. -/
  | cantidadInsuficiente
  /-- Body `{ error: err.message }`, sent with status 500. -/
  | errMessage
  /-- Body `{ message: 'Compra realizada exitosamente', new_balance, transaction_id }`. -/
  | compra (new_balance : ℚ) (transaction_id : Nat)
  /-- Body `{ message: 'Venta realizada exitosamente', transaction_id }`, with
  `new_balance` when the handler sends it. -/
  | venta (new_balance : Option ℚ) (transaction_id : Nat)
  deriving DecidableEq, Repr

/-- What a handler does with `res`: send a body with a status, or throw inside a
callback (`balanceResults[0].balance` on an empty result). -/
inductive Response
  | json (status : Nat) (body : Body)
  | typeError
  deriving DecidableEq, Repr

/-- The result kinds of the specification. -/
inductive Kind
  | Success
  | InvalidArgument
  | NotFound
  | InsufficientFunds
  | InsufficientHolding
  | StorageFailure
  | Crash
  deriving DecidableEq, Repr

/-- The specification's result kind of a response. -/
def kindOf : Response → Kind
  | .json _ .datosInvalidos => .InvalidArgument
  | .json _ .criptomonedaNoEncontrada => .NotFound
  | .json _ .usuarioNoEncontrado => .NotFound
  | .json _ .saldoInsuficiente => .InsufficientFunds
  | .json _ .cantidadInsuficiente => .InsufficientHolding
  | .json _ .errMessage => .StorageFailure
  | .json _ (.compra _ _) => .Success
  | .json _ (.venta _ _) => .Success
  | .typeError => .Crash

/-- The response is one of the rejections of the validation phase. -/
def rejected (r : Response) : Bool :=
  decide (kindOf r = .InvalidArgument ∨ kindOf r = .NotFound ∨
    kindOf r = .InsufficientFunds ∨ kindOf r = .InsufficientHolding)

/-- One flag per storage call of the handlers: `true` makes that call pass an
`err` to its callback. -/
structure Faults where
  cryptoQuery : Bool
  userQuery : Bool
  portfolioQuery : Bool
  beginTransaction : Bool
  updateUser : Bool
  insertTransaction : Bool
  commit : Bool
  balanceQuery : Bool
  deriving DecidableEq, Repr

/-- No storage call fails. -/
def noFaults : Faults :=
  ⟨false, false, false, false, false, false, false, false⟩

/-- Only the `INSERT INTO transactions` call fails. -/
def faultAtInsert : Faults :=
  ⟨false, false, false, false, false, true, false, false⟩

/-- Only the `SELECT balance` call that follows the commit of a sell fails. -/
def faultAtBalanceQuery : Faults :=
  ⟨false, false, false, false, false, false, false, true⟩

/-! ## JavaScript numbers -/

/-- The integer nearest to `y`, the even one of the two when `y` is half-way. -/
def roundHalfEven (y : ℚ) : ℤ :=
  if y - ⌊y⌋ < 1 / 2 then ⌊y⌋
  else if 1 / 2 < y - ⌊y⌋ then ⌊y⌋ + 1
  else if ⌊y⌋ % 2 = 0 then ⌊y⌋ else ⌊y⌋ + 1

/-- The double nearest to `x` (IEEE 754 binary64, round to nearest, ties to
even): with `e` the binary exponent of `x`, not below `-1022` (subnormals), the
multiple of `2 ^ (e - 52)` nearest to `x`. -/
def roundDouble (x : ℚ) : ℚ :=
  if x = 0 then 0
  else (roundHalfEven (x / 2 ^ (max (Int.log 2 |x|) (-1022) - 52)) : ℚ)
    * 2 ^ (max (Int.log 2 |x|) (-1022) - 52)

/-- The number a column value becomes in JavaScript: `parseFloat(balance)`, and
the coercion of `crypto.current_price` by `*`. -/
def toNumber (v : ℚ) : ℚ :=
  roundDouble v

/-- The JavaScript product `a * b` of two numbers. -/
def jsMul (a b : ℚ) : ℚ :=
  roundDouble (a * b)

/-- The JavaScript difference `a - b` of two numbers. -/
def jsSub (a b : ℚ) : ℚ :=
  roundDouble (a - b)

/-! ## Storage operations -/

/-- The summand of `SUM(CASE WHEN t.type = 'buy' THEN t.amount ELSE -t.amount END)`. -/
def signedAmount (t : Transaction) : ℚ :=
  if t.type = TxType.buy then t.amount else -t.amount

/-- The rows of `transactions` with `t.user_id = ? AND t.crypto_id = ?`. -/
def rowsOf (db : DB) (user_id crypto_id : Nat) : List Transaction :=
  db.transactions.filter (fun t => t.user_id = user_id ∧ t.crypto_id = crypto_id)

/-- The derived holding as the code computes it: the aggregate
`SUM(CASE WHEN t.type = 'buy' THEN t.amount ELSE -t.amount END)` over the rows of
the user and crypto, in insertion order; `0` when there is no row. -/
def holdingOf (db : DB) (user_id crypto_id : Nat) : ℚ :=
  ((rowsOf db user_id crypto_id).map signedAmount).sum

/-- The derived holding in the words of the specification: the sum of the
quantities of the buy records minus the sum of the quantities of the sell
records of the user and crypto. -/
def holdingSpec (db : DB) (user_id crypto_id : Nat) : ℚ :=
  (((rowsOf db user_id crypto_id).filter (fun t => t.type = TxType.buy)).map
      Transaction.amount).sum -
    (((rowsOf db user_id crypto_id).filter (fun t => t.type = TxType.sell)).map
      Transaction.amount).sum

/-- The balance of a user, when the user exists. -/
def balanceOf (db : DB) (user_id : Nat) : Option ℚ :=
  (db.users user_id).map UserRow.balance

/-- A result row of `portfolioQuery`. -/
structure PortfolioRow where
  id : Nat
  current_price : ℚ
  owned_amount : ℚ
  deriving DecidableEq, Repr

/-- The query `portfolioQuery` of the sell handler (lines 337-348): the
transactions of the user and crypto joined with the catalog row of the crypto,
grouped by `c.id`.  No catalog row or no transaction gives no result row. -/
def portfolioQuery (db : DB) (user_id crypto_id : Nat) : List PortfolioRow :=
  match db.cryptocurrencies crypto_id with
  | none => []
  | some c =>
    if (rowsOf db user_id crypto_id).isEmpty then []
    else [⟨crypto_id, c.current_price, holdingOf db user_id crypto_id⟩]

/-- `UPDATE users SET balance = <g balance> WHERE id = ?`: no row, no change. -/
def updateBalance (db : DB) (user_id : Nat) (g : ℚ → ℚ) : DB :=
  { db with users := fun i =>
      if i = user_id then (db.users i).map (fun u => ⟨g u.balance⟩) else db.users i }

/-- `INSERT INTO transactions (...) VALUES (...)`: appends the row with the next
id of the counter; the id is `result.insertId`. -/
def insertTransaction (db : DB) (user_id crypto_id : Nat) (type : TxType)
    (amount price total : ℚ) : DB × Nat :=
  ({ db with
      transactions := db.transactions ++
        [⟨db.autoIncrement, user_id, crypto_id, type, amount, price, total⟩]
      autoIncrement := db.autoIncrement + 1 }, db.autoIncrement)

/-- `db.rollback`: the tables as they were at `db.beginTransaction`. -/
def rollback (snapshot current : DB) : DB :=
  { snapshot with autoIncrement := current.autoIncrement }

/-! ## The handlers -/

/-- The handler `POST /api/transaction/buy` (lines 262-327). -/
def buy (f : Faults) (db : DB) (user_id crypto_id : Nat) (amount : ℚ) : Response × DB :=
  if crypto_id = 0 ∨ amount = 0 ∨ amount ≤ 0 then (.json 400 .datosInvalidos, db)
  else if f.cryptoQuery then (.json 500 .errMessage, db)
  else
    match db.cryptocurrencies crypto_id with
    | none => (.json 404 .criptomonedaNoEncontrada, db)
    | some crypto =>
      let totalCost := jsMul amount (toNumber crypto.current_price)
      if f.userQuery then (.json 500 .errMessage, db)
      else
        match db.users user_id with
        | none => (.json 404 .usuarioNoEncontrado, db)
        | some u =>
          let userBalance := toNumber u.balance
          if userBalance < totalCost then (.json 400 .saldoInsuficiente, db)
          else
            let newBalance := jsSub userBalance totalCost
            if f.beginTransaction then (.json 500 .errMessage, db)
            else if f.updateUser then (.json 500 .errMessage, rollback db db)
            else
              let db1 := updateBalance db user_id (fun _ => newBalance)
              if f.insertTransaction then (.json 500 .errMessage, rollback db db1)
              else
                let r := insertTransaction db1 user_id crypto_id .buy amount
                  crypto.current_price totalCost
                if f.commit then (.json 500 .errMessage, rollback db r.1)
                else (.json 200 (.compra newBalance r.2), r.1)

/-- The handler `POST /api/transaction/sell` (lines 329-405). -/
def sell (f : Faults) (db : DB) (user_id crypto_id : Nat) (amount : ℚ) : Response × DB :=
  if crypto_id = 0 ∨ amount = 0 ∨ amount ≤ 0 then (.json 400 .datosInvalidos, db)
  else if f.portfolioQuery then (.json 500 .errMessage, db)
  else
    match portfolioQuery db user_id crypto_id with
    | [] => (.json 400 .cantidadInsuficiente, db)
    | crypto :: _ =>
      if crypto.owned_amount < amount then (.json 400 .cantidadInsuficiente, db)
      else
        let totalValue := jsMul amount (toNumber crypto.current_price)
        if f.beginTransaction then (.json 500 .errMessage, db)
        else if f.updateUser then (.json 500 .errMessage, rollback db db)
        else
          let db1 := updateBalance db user_id (fun b => b + totalValue)
          if f.insertTransaction then (.json 500 .errMessage, rollback db db1)
          else
            let r := insertTransaction db1 user_id crypto_id .sell amount
              crypto.current_price totalValue
            if f.commit then (.json 500 .errMessage, rollback db r.1)
            else if f.balanceQuery then (.json 200 (.venta none r.2), r.1)
            else
              match r.1.users user_id with
              | none => (.typeError, r.1)
              | some u => (.json 200 (.venta (some u.balance) r.2), r.1)

/-- The external price update between requests: the catalog row of `crypto_id`
gets the price `p` (a crypto that is not catalogued stays absent). -/
def setPrice (db : DB) (crypto_id : Nat) (p : ℚ) : DB :=
  { db with cryptocurrencies := fun i =>
      if i = crypto_id then (db.cryptocurrencies i).map (fun _ => ⟨p⟩)
      else db.cryptocurrencies i }

/-- Two stores with the same three tables (the auto-increment counter may differ). -/
def SameTables (db1 db2 : DB) : Prop :=
  db1.users = db2.users ∧ db1.cryptocurrencies = db2.cryptocurrencies ∧
    db1.transactions = db2.transactions

/-- What reaches the store between two moments: a buy request, a sell request
(each with the faults its storage calls meet), or an external price update. -/
inductive Event
  | buy (f : Faults) (user_id crypto_id : Nat) (amount : ℚ)
  | sell (f : Faults) (user_id crypto_id : Nat) (amount : ℚ)
  | priceChange (crypto_id : Nat) (p : ℚ)

/-- The store after one event has run to completion. -/
def applyEvent (db : DB) : Event → DB
  | .buy f user_id crypto_id amount => (buy f db user_id crypto_id amount).2
  | .sell f user_id crypto_id amount => (sell f db user_id crypto_id amount).2
  | .priceChange crypto_id p => setPrice db crypto_id p

/-- The store after a finite sequence of events, one after the other. -/
def run (db : DB) (es : List Event) : DB :=
  es.foldl applyEvent db

/-- Every price update of the sequence sets a positive price. -/
def PositivePriceChanges (es : List Event) : Prop :=
  ∀ c p, Event.priceChange c p ∈ es → 0 < p

/-- Every balance of the store is non-negative. -/
def BalancesNonneg (db : DB) : Prop :=
  ∀ u b, balanceOf db u = some b → 0 ≤ b

/-- Every catalog price of the store is positive. -/
def PricesPositive (db : DB) : Prop :=
  ∀ c row, db.cryptocurrencies c = some row → 0 < row.current_price

/-- Every derived holding of the store is non-negative. -/
def HoldingsNonneg (db : DB) : Prop :=
  ∀ u c, 0 ≤ holdingOf db u c

/-! ## Statement-level execution of concurrent sells

All requests use the one connection `db` of the process, so the statements of
concurrent requests reach the store one at a time, in the order in which the
callbacks issue them, and each statement sees the writes of the earlier ones.
A request advances by one storage call at a time; between two of its calls the
calls of other requests may run.  Only fault-free runs are modelled here, where
`beginTransaction` and `commit` change nothing a later statement reads, so they
are not steps of their own. -/

/-- A sell request: the user id of the token and the request body. -/
structure SellReq where
  user_id : Nat
  crypto_id : Nat
  amount : ℚ

/-- Where a sell request stands: before `portfolioQuery`, before the `UPDATE`
(holding the row `crypto` it read), before the `INSERT`, before the balance read
that follows the commit (holding `result.insertId`), or answered. -/
inductive SellPc
  | start
  | checked (crypto : PortfolioRow)
  | updated (crypto : PortfolioRow)
  | committed (insertId : Nat)
  | done (r : Response)
  deriving DecidableEq, Repr

/-- The next storage call of a sell request and the callback that follows it
(lines 333-399 without faults). -/
def sellStep (db : DB) (req : SellReq) : SellPc → SellPc × DB
  | .start =>
    if req.crypto_id = 0 ∨ req.amount = 0 ∨ req.amount ≤ 0 then
      (.done (.json 400 .datosInvalidos), db)
    else
      match portfolioQuery db req.user_id req.crypto_id with
      | [] => (.done (.json 400 .cantidadInsuficiente), db)
      | crypto :: _ =>
        if crypto.owned_amount < req.amount then
          (.done (.json 400 .cantidadInsuficiente), db)
        else (.checked crypto, db)
  | .checked crypto =>
    (.updated crypto,
      updateBalance db req.user_id (fun b => b + jsMul req.amount (toNumber crypto.current_price)))
  | .updated crypto =>
    let r := insertTransaction db req.user_id req.crypto_id .sell req.amount
      crypto.current_price (jsMul req.amount (toNumber crypto.current_price))
    (.committed r.2, r.1)
  | .committed insertId =>
    match db.users req.user_id with
    | none => (.done .typeError, db)
    | some u => (.done (.json 200 (.venta (some u.balance) insertId)), db)
  | .done r => (.done r, db)

/-- One scheduling decision: request `i` makes its next storage call. -/
def stepAt (reqs : Nat → SellReq) (s : DB × (Nat → SellPc)) (i : Nat) :
    DB × (Nat → SellPc) :=
  ((sellStep s.1 (reqs i) (s.2 i)).2,
    fun j => if j = i then (sellStep s.1 (reqs i) (s.2 i)).1 else s.2 j)

/-- The store and the standing of every request after the storage calls have run
in the order of `schedule`, every request starting before its first call. -/
def interleave (reqs : Nat → SellReq) (db : DB) (schedule : List Nat) :
    DB × (Nat → SellPc) :=
  schedule.foldl (stepAt reqs) (db, fun _ => .start)

/-- The schedule that serves requests `0, ..., n - 1` one after the other: the
four storage calls of a request run with no call of another request in between. -/
def serialSchedule : Nat → List Nat
  | 0 => []
  | n + 1 => serialSchedule n ++ [n, n, n, n]

/-- User 1 with balance 800.00 holding exactly 2 units of crypto 1, priced 150.00. -/
def holdingDB : DB where
  users := fun i => if i = 1 then some ⟨800⟩ else none
  cryptocurrencies := fun i => if i = 1 then some ⟨150⟩ else none
  transactions := [⟨1, 1, 1, .buy, 2, 100, 200⟩]
  autoIncrement := 2

/-! ## Example stores -/

/-- User 1 with balance 0.30, crypto 1 priced 0.10, empty ledger. -/
def dimeDB : DB where
  users := fun i => if i = 1 then some ⟨3 / 10⟩ else none
  cryptocurrencies := fun i => if i = 1 then some ⟨1 / 10⟩ else none
  transactions := []
  autoIncrement := 1

/-- User 1 with balance 1.00 holding 3 units of crypto 1, priced 0.10. -/
def dimeHoldingDB : DB where
  users := fun i => if i = 1 then some ⟨1⟩ else none
  cryptocurrencies := fun i => if i = 1 then some ⟨1 / 10⟩ else none
  transactions := [⟨1, 1, 1, .buy, 3, 1 / 10, 1351079888211149 / 4503599627370496⟩]
  autoIncrement := 2

/-- User 1 with balance 2.10, crypto 1 priced 0.70, empty ledger. -/
def edgeDB : DB where
  users := fun i => if i = 1 then some ⟨21 / 10⟩ else none
  cryptocurrencies := fun i => if i = 1 then some ⟨7 / 10⟩ else none
  transactions := []
  autoIncrement := 1

/-- The double `3.0000000000000004`, one unit in the last place above 3. -/
def threePlusUlp : ℚ :=
  6755399441055745 / 2251799813685248


/-- A buy of 2 units, a price change to 150.00, a sell of 1 unit, then a sell of
5 units (more than is held), all by user 1 on crypto 1. -/
def exampleEvents : List Event :=
  [.buy noFaults 1 1 2, .priceChange 1 150, .sell noFaults 1 1 1, .sell noFaults 1 1 5]


/-- User 1 with balance 1000.00, crypto 1 priced 100.00, empty ledger. -/
def exampleDB : DB where
  users := fun i => if i = 1 then some ⟨1000⟩ else none
  cryptocurrencies := fun i => if i = 1 then some ⟨100⟩ else none
  transactions := []
  autoIncrement := 1

/-- The store `exampleDB` after user 1 bought 2 units of crypto 1 at 100.00 and
the price of crypto 1 then changed to 150.00. -/
def exampleDB2 : DB where
  users := fun i => if i = 1 then some ⟨800⟩ else none
  cryptocurrencies := fun i => if i = 1 then some ⟨150⟩ else none
  transactions := [⟨1, 1, 1, .buy, 2, 100, 200⟩]
  autoIncrement := 2

/-- User 1 with balance 50.00, crypto 1 priced 100.00, empty ledger. -/
def poorDB : DB where
  users := fun i => if i = 1 then some ⟨50⟩ else none
  cryptocurrencies := fun i => if i = 1 then some ⟨100⟩ else none
  transactions := []
  autoIncrement := 1

/-! ## Rounding lemmas -/

theorem log2_eq_of_bounds (x : ℚ) (e : ℤ) (hx : 0 < x) (h1 : (2 : ℚ) ^ e ≤ x)
    (h2 : x < 2 ^ (e + 1)) : Int.log 2 |x| = e := by
  rw [abs_of_pos hx]
  have a : e ≤ Int.log 2 x :=
    (Int.zpow_le_iff_le_log (by norm_num) hx).mp (by exact_mod_cast h1)
  have b : Int.log 2 x < e + 1 :=
    (Int.lt_zpow_iff_log_lt (by norm_num) hx).mp (by exact_mod_cast h2)
  omega

theorem roundHalfEven_of_lt (y : ℚ) (m : ℤ) (h1 : (m : ℚ) - 1 / 2 < y)
    (h2 : y < m + 1 / 2) : roundHalfEven y = m := by
  unfold roundHalfEven
  by_cases hy : (m : ℚ) ≤ y
  · have hf : ⌊y⌋ = m := by
      rw [Int.floor_eq_iff]; constructor <;> linarith
    rw [hf, if_pos (by linarith)]
  · push_neg at hy
    have hf : ⌊y⌋ = m - 1 := by
      rw [Int.floor_eq_iff]; push_cast; constructor <;> linarith
    rw [hf]
    push_cast
    rw [if_neg (by linarith), if_pos (by linarith)]
    ring

theorem roundHalfEven_tie_up (y : ℚ) (m : ℤ) (hm : m % 2 = 0) (h : y = m - 1 / 2) :
    roundHalfEven y = m := by
  unfold roundHalfEven
  have hf : ⌊y⌋ = m - 1 := by
    rw [Int.floor_eq_iff]; push_cast; constructor <;> linarith
  rw [hf]
  push_cast
  rw [if_neg (by linarith), if_neg (by linarith), if_neg (by omega)]
  ring

theorem roundHalfEven_nonneg (y : ℚ) (hy : 0 ≤ y) : 0 ≤ roundHalfEven y := by
  have hf : 0 ≤ ⌊y⌋ := Int.floor_nonneg.mpr hy
  unfold roundHalfEven
  split_ifs <;> omega

theorem roundDouble_zero : roundDouble 0 = 0 := by
  simp [roundDouble]

theorem roundDouble_nonneg (x : ℚ) (hx : 0 ≤ x) : 0 ≤ roundDouble x := by
  unfold roundDouble
  split_ifs with h0
  · exact le_refl 0
  · have hpow : (0 : ℚ) < 2 ^ (max (Int.log 2 |x|) (-1022) - 52) := by positivity
    have hy : 0 ≤ x / 2 ^ (max (Int.log 2 |x|) (-1022) - 52) := div_nonneg hx hpow.le
    have hr := roundHalfEven_nonneg _ hy
    have hrq : (0 : ℚ) ≤ (roundHalfEven (x / 2 ^ (max (Int.log 2 |x|) (-1022) - 52)) : ℚ) := by
      exact_mod_cast hr
    exact mul_nonneg hrq hpow.le

/-- The value of `roundDouble` at a positive `x` with binary exponent `e`, from
the integer `m` nearest to `x / 2 ^ (e - 52)`. -/
theorem roundDouble_eq_pos (x : ℚ) (e m : ℤ) (hx : 0 < x) (h1 : (2 : ℚ) ^ e ≤ x)
    (h2 : x < 2 ^ (e + 1)) (hmin : -1022 ≤ e)
    (hm : roundHalfEven (x / 2 ^ (e - 52)) = m) :
    roundDouble x = m * 2 ^ (e - 52) := by
  unfold roundDouble
  rw [if_neg (ne_of_gt hx), log2_eq_of_bounds x e hx h1 h2, max_eq_left hmin, hm]

/-- A positive multiple of `2 ^ (e - 52)` with binary exponent `e` is a double. -/
theorem roundDouble_exact (x : ℚ) (e k : ℤ) (hx : 0 < x) (h1 : (2 : ℚ) ^ e ≤ x)
    (h2 : x < 2 ^ (e + 1)) (hmin : -1022 ≤ e) (hk : x / 2 ^ (e - 52) = k) :
    roundDouble x = x := by
  have hm : roundHalfEven (x / 2 ^ (e - 52)) = k :=
    roundHalfEven_of_lt _ k (by rw [hk]; linarith) (by rw [hk]; linarith)
  rw [roundDouble_eq_pos x e k hx h1 h2 hmin hm, ← hk]
  have hpow : (2 : ℚ) ^ (e - 52) ≠ 0 := by positivity
  field_simp

theorem jsMul_nonneg (a p : ℚ) (ha : 0 ≤ a) (hp : 0 ≤ p) : 0 ≤ jsMul a (toNumber p) :=
  roundDouble_nonneg _ (mul_nonneg ha (roundDouble_nonneg p hp))

theorem jsSub_nonneg (x y : ℚ) (h : y ≤ x) : 0 ≤ jsSub x y :=
  roundDouble_nonneg _ (by linarith)

/-! ## Values of the rounding on the numbers of the examples -/

theorem roundDouble_50 : roundDouble 50 = 50 :=
  roundDouble_exact 50 5 (50 * 2 ^ 47) (by norm_num) (by norm_num) (by norm_num)
    (by norm_num) (by norm_num)

theorem roundDouble_100 : roundDouble 100 = 100 :=
  roundDouble_exact 100 6 (100 * 2 ^ 46) (by norm_num) (by norm_num) (by norm_num)
    (by norm_num) (by norm_num)

theorem roundDouble_150 : roundDouble 150 = 150 :=
  roundDouble_exact 150 7 (150 * 2 ^ 45) (by norm_num) (by norm_num) (by norm_num)
    (by norm_num) (by norm_num)

theorem roundDouble_200 : roundDouble 200 = 200 :=
  roundDouble_exact 200 7 (200 * 2 ^ 45) (by norm_num) (by norm_num) (by norm_num)
    (by norm_num) (by norm_num)

theorem roundDouble_300 : roundDouble 300 = 300 :=
  roundDouble_exact 300 8 (300 * 2 ^ 44) (by norm_num) (by norm_num) (by norm_num)
    (by norm_num) (by norm_num)

theorem roundDouble_800 : roundDouble 800 = 800 :=
  roundDouble_exact 800 9 (800 * 2 ^ 43) (by norm_num) (by norm_num) (by norm_num)
    (by norm_num) (by norm_num)

theorem roundDouble_1000 : roundDouble 1000 = 1000 :=
  roundDouble_exact 1000 9 (1000 * 2 ^ 43) (by norm_num) (by norm_num) (by norm_num)
    (by norm_num) (by norm_num)

/-- The double of `0.1` is `0x1999999999999A * 2 ^ -56`. -/
theorem roundDouble_tenth :
    roundDouble (1 / 10) = 3602879701896397 / 36028797018963968 := by
  rw [roundDouble_eq_pos (1 / 10) (-4) 7205759403792794 (by norm_num) (by norm_num)
    (by norm_num) (by norm_num) (roundHalfEven_of_lt _ _ (by norm_num) (by norm_num))]
  norm_num

/-- The double of `0.3` is `0x13333333333333 * 2 ^ -54`. -/
theorem roundDouble_three_tenths :
    roundDouble (3 / 10) = 5404319552844595 / 18014398509481984 := by
  rw [roundDouble_eq_pos (3 / 10) (-2) 5404319552844595 (by norm_num) (by norm_num)
    (by norm_num) (by norm_num) (roundHalfEven_of_lt _ _ (by norm_num) (by norm_num))]
  norm_num

/-- The product `3 * 0.1` of doubles lies half-way between two doubles and rounds
to the even one, `0x13333333333334 * 2 ^ -54`, which is `0.30000000000000004`. -/
theorem roundDouble_three_times_tenth :
    roundDouble (3 * (3602879701896397 / 36028797018963968))
      = 1351079888211149 / 4503599627370496 := by
  rw [roundDouble_eq_pos (3 * (3602879701896397 / 36028797018963968)) (-2)
    5404319552844596 (by norm_num) (by norm_num) (by norm_num) (by norm_num)
    (roundHalfEven_tie_up _ _ (by norm_num) (by norm_num))]
  norm_num

/-- The double of `0.7` is `0x16666666666666 * 2 ^ -53`. -/
theorem roundDouble_seven_tenths :
    roundDouble (7 / 10) = 3152519739159347 / 4503599627370496 := by
  rw [roundDouble_eq_pos (7 / 10) (-1) 6305039478318694 (by norm_num) (by norm_num)
    (by norm_num) (by norm_num) (roundHalfEven_of_lt _ _ (by norm_num) (by norm_num))]
  norm_num

/-- The double of `2.1` is `0x10CCCCCCCCCCCD * 2 ^ -51`. -/
theorem roundDouble_twentyone_tenths :
    roundDouble (21 / 10) = 4728779608739021 / 2251799813685248 := by
  rw [roundDouble_eq_pos (21 / 10) 1 4728779608739021 (by norm_num) (by norm_num)
    (by norm_num) (by norm_num) (roundHalfEven_of_lt _ _ (by norm_num) (by norm_num))]
  norm_num

/-- The product of the doubles `3.0000000000000004` and `0.7` rounds to the
double of `2.1`. -/
theorem roundDouble_three_ulp_times_seven_tenths :
    roundDouble (6755399441055745 / 2251799813685248 *
        (3152519739159347 / 4503599627370496))
      = 4728779608739021 / 2251799813685248 := by
  rw [roundDouble_eq_pos (6755399441055745 / 2251799813685248 *
      (3152519739159347 / 4503599627370496)) 1 4728779608739021 (by norm_num)
    (by norm_num) (by norm_num) (by norm_num)
    (roundHalfEven_of_lt _ _ (by norm_num) (by norm_num))]
  norm_num

/-! ## Values of the JavaScript operations on the numbers of the examples -/

theorem jsMul_1_100 : jsMul 1 (toNumber 100) = 100 := by
  rw [jsMul, toNumber, roundDouble_100, one_mul, roundDouble_100]

theorem jsMul_2_100 : jsMul 2 (toNumber 100) = 200 := by
  rw [jsMul, toNumber, roundDouble_100, show (2 : ℚ) * 100 = 200 by norm_num,
    roundDouble_200]

theorem jsMul_1_150 : jsMul 1 (toNumber 150) = 150 := by
  rw [jsMul, toNumber, roundDouble_150, one_mul, roundDouble_150]

theorem jsMul_2_150 : jsMul 2 (toNumber 150) = 300 := by
  rw [jsMul, toNumber, roundDouble_150, show (2 : ℚ) * 150 = 300 by norm_num,
    roundDouble_300]

theorem toNumber_50 : toNumber 50 = 50 := roundDouble_50

theorem toNumber_800 : toNumber 800 = 800 := roundDouble_800

theorem toNumber_1000 : toNumber 1000 = 1000 := roundDouble_1000

theorem jsSub_1000_200 : jsSub 1000 200 = 800 := by
  rw [jsSub, show (1000 : ℚ) - 200 = 800 by norm_num, roundDouble_800]

theorem toNumber_three_tenths : toNumber (3 / 10) = 5404319552844595 / 18014398509481984 :=
  roundDouble_three_tenths

theorem jsMul_3_tenth : jsMul 3 (toNumber (1 / 10)) = 1351079888211149 / 4503599627370496 := by
  rw [jsMul, toNumber, roundDouble_tenth, roundDouble_three_times_tenth]

theorem toNumber_twentyone_tenths :
    toNumber (21 / 10) = 4728779608739021 / 2251799813685248 :=
  roundDouble_twentyone_tenths

theorem jsMul_threePlusUlp_seven_tenths :
    jsMul threePlusUlp (toNumber (7 / 10)) = 4728779608739021 / 2251799813685248 := by
  rw [jsMul, toNumber, roundDouble_seven_tenths, threePlusUlp,
    roundDouble_three_ulp_times_seven_tenths]

/-! ## Ledger lemmas -/

theorem holdingOf_insert (db : DB) (u c : Nat) (ty : TxType) (a p t : ℚ) (u0 c0 : Nat) :
    holdingOf (insertTransaction db u c ty a p t).1 u0 c0 =
      holdingOf db u0 c0 +
        (if u = u0 ∧ c = c0 then (if ty = TxType.buy then a else -a) else 0) := by
  unfold holdingOf rowsOf insertTransaction
  by_cases h : u = u0 ∧ c = c0
  · simp [List.filter_append, List.filter_cons, h, signedAmount]
  · simp [List.filter_append, List.filter_cons, h]

theorem signedSum_eq_buys_sub_sells (l : List Transaction) :
    (l.map signedAmount).sum =
      ((l.filter (fun t => t.type = TxType.buy)).map Transaction.amount).sum -
        ((l.filter (fun t => t.type = TxType.sell)).map Transaction.amount).sum := by
  induction l with
  | nil => simp
  | cons t l ih =>
    cases ht : t.type with
    | buy => simp [List.filter_cons, signedAmount, ht, ih]; ring
    | sell => simp [List.filter_cons, signedAmount, ht, ih]; ring

/-- The aggregate of the code is the holding of the specification. -/
theorem holdingOf_eq_holdingSpec (db : DB) (u c : Nat) :
    holdingOf db u c = holdingSpec db u c :=
  signedSum_eq_buys_sub_sells (rowsOf db u c)

theorem holdingOf_transactions_eq {db1 db2 : DB} (h : db1.transactions = db2.transactions)
    (u c : Nat) : holdingOf db1 u c = holdingOf db2 u c := by
  unfold holdingOf rowsOf
  rw [h]

theorem holdingOf_updateBalance (db : DB) (uid : Nat) (g : ℚ → ℚ) (u c : Nat) :
    holdingOf (updateBalance db uid g) u c = holdingOf db u c :=
  holdingOf_transactions_eq rfl u c

theorem rowsOf_ne_nil_of_holding_pos {db : DB} {u c : Nat}
    (h : 0 < holdingOf db u c) : (rowsOf db u c).isEmpty = false := by
  cases hr : rowsOf db u c with
  | nil => simp [holdingOf, hr] at h
  | cons a l => rfl

/-! ## The two outcomes of a handler -/

theorem sameTables_refl (db : DB) : SameTables db db := ⟨rfl, rfl, rfl⟩

theorem sameTables_rollback (db cur : DB) : SameTables (rollback db cur) db := ⟨rfl, rfl, rfl⟩

/-- A buy either leaves the three tables as they were, or it passed validation
and committed the balance write together with the ledger row. -/
theorem buy_cases (f : Faults) (db : DB) (u c : Nat) (a : ℚ) :
    SameTables (buy f db u c a).2 db ∨
      ∃ crypto row, c ≠ 0 ∧ 0 < a ∧ db.cryptocurrencies c = some crypto ∧
        db.users u = some row ∧ jsMul a (toNumber crypto.current_price) ≤ toNumber row.balance ∧
        (buy f db u c a).1
          = .json 200 (.compra (jsSub (toNumber row.balance) (jsMul a (toNumber crypto.current_price))) db.autoIncrement) ∧
        (buy f db u c a).2 =
          (insertTransaction
            (updateBalance db u (fun _ => jsSub (toNumber row.balance) (jsMul a (toNumber crypto.current_price))))
            u c .buy a crypto.current_price (jsMul a (toNumber crypto.current_price))).1 := by
  obtain ⟨f1, f2, f3, f4, f5, f6, f7, f8⟩ := f
  by_cases h1 : c = 0 ∨ a = 0 ∨ a ≤ 0
  · left; simp [buy, h1, sameTables_refl]
  have ha : 0 < a := lt_of_not_ge (fun h => h1 (Or.inr (Or.inr h)))
  have hc0 : c ≠ 0 := fun h => h1 (Or.inl h)
  have h1a : ¬ (a = 0 ∨ a ≤ 0) := fun h => h1 (Or.inr h)
  cases hc : db.cryptocurrencies c with
  | none => left; cases f1 <;> simp [buy, h1, hc, sameTables_refl]
  | some crypto =>
    cases hu : db.users u with
    | none => left; cases f1 <;> cases f2 <;> simp [buy, h1, hc, hu, sameTables_refl]
    | some row =>
      by_cases h4 : toNumber row.balance < jsMul a (toNumber crypto.current_price)
      · left; cases f1 <;> cases f2 <;> simp [buy, h1, hc, hu, h4, sameTables_refl]
      · cases f1 <;> cases f2 <;> cases f4 <;> cases f5 <;> cases f6 <;> cases f7 <;>
          first
          | (left
             simp [buy, h1a, hc, hu, h4, hc0, sameTables_refl, sameTables_rollback]
             done)
          | (right
             exact ⟨crypto, row, hc0, ha, rfl, rfl, not_lt.mp h4,
               by simp [buy, h1a, hc, hu, h4, hc0, insertTransaction, updateBalance],
               by simp [buy, h1a, hc, hu, h4, hc0]⟩)

/-- A sell either leaves the three tables as they were, or it passed validation
and committed the balance write together with the ledger row. -/
theorem sell_cases (f : Faults) (db : DB) (u c : Nat) (a : ℚ) :
    SameTables (sell f db u c a).2 db ∨
      ∃ crypto, c ≠ 0 ∧ 0 < a ∧ db.cryptocurrencies c = some crypto ∧
        a ≤ holdingOf db u c ∧
        (sell f db u c a).2 =
          (insertTransaction
            (updateBalance db u (fun b => b + jsMul a (toNumber crypto.current_price)))
            u c .sell a crypto.current_price (jsMul a (toNumber crypto.current_price))).1 := by
  obtain ⟨f1, f2, f3, f4, f5, f6, f7, f8⟩ := f
  by_cases h1 : c = 0 ∨ a = 0 ∨ a ≤ 0
  · left; simp [sell, h1, sameTables_refl]
  have ha : 0 < a := lt_of_not_ge (fun h => h1 (Or.inr (Or.inr h)))
  have hc0 : c ≠ 0 := fun h => h1 (Or.inl h)
  have h1a : ¬ (a = 0 ∨ a ≤ 0) := fun h => h1 (Or.inr h)
  cases hc : db.cryptocurrencies c with
  | none => left; cases f3 <;> simp [sell, portfolioQuery, h1, hc, sameTables_refl]
  | some crypto =>
    cases hr : (rowsOf db u c).isEmpty with
    | true => left; cases f3 <;> simp [sell, portfolioQuery, h1, hc, hr, sameTables_refl]
    | false =>
      by_cases h4 : holdingOf db u c < a
      · left; cases f3 <;> simp [sell, portfolioQuery, h1, hc, hr, h4, sameTables_refl]
      · cases f3 <;> cases f4 <;> cases f5 <;> cases f6 <;> cases f7 <;> cases f8 <;>
          first
          | (left
             simp [sell, portfolioQuery, h1a, hc, hr, h4, hc0, sameTables_refl,
               sameTables_rollback]
             done)
          | (right
             refine ⟨crypto, hc0, ha, rfl, not_lt.mp h4, ?_⟩
             simp only [sell, portfolioQuery, h1a, hc, hr, h4, hc0, false_or, if_false,
               Bool.false_eq_true]
             first
               | rfl
               | (split <;> rfl))

/-! ## Preservation of the invariants by one event -/

theorem balancesNonneg_of_users_eq (db1 db2 : DB) (h : db1.users = db2.users)
    (hb : BalancesNonneg db2) : BalancesNonneg db1 := by
  intro u b hu
  apply hb u b
  simpa [balanceOf, h] using hu

theorem pricesPositive_of_catalog_eq {db1 db2 : DB}
    (h : db1.cryptocurrencies = db2.cryptocurrencies)
    (hp : PricesPositive db2) : PricesPositive db1 := by
  intro c row hc
  apply hp c row
  rw [← h]; exact hc

theorem balancesNonneg_update (db : DB) (uid : Nat) (g : ℚ → ℚ)
    (hb : BalancesNonneg db) (hg : ∀ b, balanceOf db uid = some b → 0 ≤ g b) :
    BalancesNonneg (updateBalance db uid g) := by
  intro u b hu
  unfold balanceOf updateBalance at hu
  by_cases h : u = uid
  · subst h
    simp only [if_true] at hu
    cases hrow : db.users u with
    | none => simp [hrow] at hu
    | some row =>
      simp [hrow] at hu
      rw [← hu]
      exact hg row.balance (by simp [balanceOf, hrow])
  · simp only [if_neg h] at hu
    exact hb u b hu

theorem buy_preserves_balances (f : Faults) (db : DB) (u c : Nat) (a : ℚ)
    (hb : BalancesNonneg db) : BalancesNonneg (buy f db u c a).2 := by
  rcases buy_cases f db u c a with h | ⟨crypto, row, -, -, -, hu, hle, -, heq⟩
  · exact balancesNonneg_of_users_eq _ _ h.1 hb
  · rw [heq]
    exact balancesNonneg_of_users_eq _
      (updateBalance db u (fun _ => jsSub (toNumber row.balance) (jsMul a (toNumber crypto.current_price)))) rfl
      (balancesNonneg_update db u _ hb (fun _ _ => jsSub_nonneg _ _ hle))

theorem sell_preserves_balances (f : Faults) (db : DB) (u c : Nat) (a : ℚ)
    (hb : BalancesNonneg db) (hp : PricesPositive db) :
    BalancesNonneg (sell f db u c a).2 := by
  rcases sell_cases f db u c a with h | ⟨crypto, -, ha, hc, -, heq⟩
  · exact balancesNonneg_of_users_eq _ _ h.1 hb
  · rw [heq]
    have hpos : 0 < crypto.current_price := hp c crypto hc
    exact balancesNonneg_of_users_eq _
      (updateBalance db u (fun b => b + jsMul a (toNumber crypto.current_price))) rfl
      (balancesNonneg_update db u _ hb (fun b hbal => by
        have h0 := hb u b hbal
        have := jsMul_nonneg a crypto.current_price ha.le hpos.le
        linarith))

theorem buy_catalog (f : Faults) (db : DB) (u c : Nat) (a : ℚ) :
    (buy f db u c a).2.cryptocurrencies = db.cryptocurrencies := by
  rcases buy_cases f db u c a with h | ⟨crypto, row, -, -, -, -, -, -, heq⟩
  · exact h.2.1
  · rw [heq]; rfl

theorem sell_catalog (f : Faults) (db : DB) (u c : Nat) (a : ℚ) :
    (sell f db u c a).2.cryptocurrencies = db.cryptocurrencies := by
  rcases sell_cases f db u c a with h | ⟨crypto, -, -, -, -, heq⟩
  · exact h.2.1
  · rw [heq]; rfl

theorem setPrice_pricesPositive (db : DB) (c : Nat) (p : ℚ) (hp : PricesPositive db)
    (h : 0 < p) : PricesPositive (setPrice db c p) := by
  intro i row hi
  unfold setPrice at hi
  by_cases hic : i = c
  · subst hic
    simp only [if_true] at hi
    cases hrow : db.cryptocurrencies i with
    | none => simp [hrow] at hi
    | some r =>
      simp [hrow] at hi
      rw [← hi]; exact h
  · simp only [if_neg hic] at hi
    exact hp i row hi

theorem buy_preserves_holdings (f : Faults) (db : DB) (u c : Nat) (a : ℚ)
    (hh : HoldingsNonneg db) : HoldingsNonneg (buy f db u c a).2 := by
  intro u0 c0
  rcases buy_cases f db u c a with h | ⟨crypto, row, -, ha, -, -, -, -, heq⟩
  · rw [holdingOf_transactions_eq h.2.2]; exact hh u0 c0
  · rw [heq, holdingOf_insert, holdingOf_updateBalance]
    have := hh u0 c0
    by_cases hcond : u = u0 ∧ c = c0
    · simp only [hcond, and_self, if_true]; linarith
    · simp only [hcond, if_false]; linarith

theorem sell_preserves_holdings (f : Faults) (db : DB) (u c : Nat) (a : ℚ)
    (hh : HoldingsNonneg db) : HoldingsNonneg (sell f db u c a).2 := by
  intro u0 c0
  rcases sell_cases f db u c a with h | ⟨crypto, -, -, -, hle, heq⟩
  · rw [holdingOf_transactions_eq h.2.2]; exact hh u0 c0
  · rw [heq, holdingOf_insert, holdingOf_updateBalance]
    have := hh u0 c0
    by_cases hcond : u = u0 ∧ c = c0
    · obtain ⟨rfl, rfl⟩ := hcond
      simp; linarith
    · simp only [hcond, if_false]; linarith

theorem applyEvent_preserves_holdings (db : DB) (e : Event) (hh : HoldingsNonneg db) :
    HoldingsNonneg (applyEvent db e) := by
  cases e with
  | buy f u c a => exact buy_preserves_holdings f db u c a hh
  | sell f u c a => exact sell_preserves_holdings f db u c a hh
  | priceChange c p =>
    intro u0 c0
    have : holdingOf (setPrice db c p) u0 c0 = holdingOf db u0 c0 :=
      holdingOf_transactions_eq rfl u0 c0
    rw [applyEvent, this]; exact hh u0 c0

theorem run_preserves_holdings (es : List Event) (db : DB) (hh : HoldingsNonneg db) :
    HoldingsNonneg (run db es) := by
  induction es generalizing db with
  | nil => exact hh
  | cons e es ih => exact ih (applyEvent db e) (applyEvent_preserves_holdings db e hh)

theorem run_preserves_balances (es : List Event) (db : DB)
    (hb : BalancesNonneg db) (hp : PricesPositive db) (hes : PositivePriceChanges es) :
    BalancesNonneg (run db es) ∧ PricesPositive (run db es) := by
  induction es generalizing db with
  | nil => exact ⟨hb, hp⟩
  | cons e es ih =>
    have hes1 : PositivePriceChanges es := fun c p h => hes c p (List.mem_cons_of_mem _ h)
    cases e with
    | buy f u c a =>
      exact ih _ (buy_preserves_balances f db u c a hb)
        (pricesPositive_of_catalog_eq (buy_catalog f db u c a) hp) hes1
    | sell f u c a =>
      exact ih _ (sell_preserves_balances f db u c a hb hp)
        (pricesPositive_of_catalog_eq (sell_catalog f db u c a) hp) hes1
    | priceChange c p =>
      exact ih _ (balancesNonneg_of_users_eq (setPrice db c p) db rfl hb)
        (setPrice_pricesPositive db c p hp (hes c p (List.mem_cons_self _ _))) hes1

/-! ## Serial execution of the statement-level steps -/

/-- The four storage calls of a sell request, run with nothing in between, are
the fault-free sell handler. -/
theorem sellStep_four (db : DB) (req : SellReq) :
    sellStep (sellStep (sellStep (sellStep db req .start).2 req
        (sellStep db req .start).1).2 req
        (sellStep (sellStep db req .start).2 req (sellStep db req .start).1).1).2 req
      (sellStep (sellStep (sellStep db req .start).2 req
        (sellStep db req .start).1).2 req
        (sellStep (sellStep db req .start).2 req (sellStep db req .start).1).1).1
    = (.done (sell noFaults db req.user_id req.crypto_id req.amount).1,
        (sell noFaults db req.user_id req.crypto_id req.amount).2) := by
  obtain ⟨u, c, a⟩ := req
  by_cases h1 : c = 0 ∨ a = 0 ∨ a ≤ 0
  · simp [sellStep, sell, h1]
  cases hc : db.cryptocurrencies c with
  | none => simp [sellStep, sell, portfolioQuery, h1, hc, noFaults]
  | some crypto =>
    cases hr : (rowsOf db u c).isEmpty with
    | true => simp [sellStep, sell, portfolioQuery, h1, hc, hr, noFaults]
    | false =>
      by_cases h4 : holdingOf db u c < a
      · simp [sellStep, sell, portfolioQuery, h1, hc, hr, h4, noFaults]
      · cases hu : db.users u with
        | none =>
          simp [sellStep, sell, portfolioQuery, h1, hc, hr, h4, hu, noFaults,
            insertTransaction, updateBalance]
        | some row =>
          simp [sellStep, sell, portfolioQuery, h1, hc, hr, h4, hu, noFaults,
            insertTransaction, updateBalance]

/-- Four scheduling decisions in a row for a request that has not started yet
serve it as the fault-free sell handler does, and leave the other requests where
they stand. -/
theorem stepAt_four (reqs : Nat → SellReq) (db : DB) (pcs : Nat → SellPc) (i : Nat)
    (h : pcs i = .start) :
    [i, i, i, i].foldl (stepAt reqs) (db, pcs) =
      ((sell noFaults db (reqs i).user_id (reqs i).crypto_id (reqs i).amount).2,
        fun j => if j = i then
          .done (sell noFaults db (reqs i).user_id (reqs i).crypto_id (reqs i).amount).1
          else pcs j) := by
  have h4 := sellStep_four db (reqs i)
  simp only [List.foldl, stepAt, if_true, h]
  refine Prod.ext ?_ ?_
  · simp only
    rw [h4]
  · funext j
    by_cases hj : j = i
    · simp only [hj, if_true]
      rw [h4]
    · simp only [hj, if_false]

theorem sell_noFaults_commit (db : DB) (u c : Nat) (q p b : ℚ)
    (hid : c ≠ 0) (hq : 0 < q) (hc : db.cryptocurrencies c = some ⟨p⟩)
    (hu : balanceOf db u = some b) (hhold : q ≤ holdingOf db u c) :
    sell noFaults db u c q =
      (.json 200 (.venta (some (b + jsMul q (toNumber p))) db.autoIncrement),
        (insertTransaction (updateBalance db u (fun x => x + jsMul q (toNumber p))) u c .sell q p
          (jsMul q (toNumber p))).1) := by
  cases hrow : db.users u with
  | none => simp [balanceOf, hrow] at hu
  | some row =>
    have hb : row.balance = b := by simpa [balanceOf, hrow] using hu
    have h1 : ¬ (c = 0 ∨ q = 0 ∨ q ≤ 0) := by
      rintro (h | h | h)
      · exact hid h
      · exact (ne_of_gt hq) h
      · exact absurd hq (not_lt.mpr h)
    have hne : (rowsOf db u c).isEmpty = false :=
      rowsOf_ne_nil_of_holding_pos (lt_of_lt_of_le hq hhold)
    have hnlt : ¬ holdingOf db u c < q := not_lt.mpr hhold
    simp [sell, noFaults, portfolioQuery, h1, hc, hne, hnlt, hrow, hb, insertTransaction,
      updateBalance]

theorem sell_noFaults_reject (db : DB) (u c : Nat) (q : ℚ)
    (hid : c ≠ 0) (hq : 0 < q) (hlt : holdingOf db u c < q) :
    sell noFaults db u c q = (.json 400 .cantidadInsuficiente, db) := by
  have h1 : ¬ (c = 0 ∨ q = 0 ∨ q ≤ 0) := by
    rintro (h | h | h)
    · exact hid h
    · exact (ne_of_gt hq) h
    · exact absurd hq (not_lt.mpr h)
  cases hc : db.cryptocurrencies c with
  | none => simp [sell, noFaults, portfolioQuery, h1, hc]
  | some crypto =>
    cases hr : (rowsOf db u c).isEmpty with
    | true => simp [sell, noFaults, portfolioQuery, h1, hc, hr]
    | false => simp [sell, noFaults, portfolioQuery, h1, hc, hr, hlt]

/-- The state after `n + 1` equal sell requests for the whole holding have been
served one after the other: the first committed, the others were turned down. -/
theorem serial_sells_state (n : Nat) (db : DB) (u c : Nat) (q p b : ℚ)
    (hid : c ≠ 0) (hq : 0 < q) (hc : db.cryptocurrencies c = some ⟨p⟩)
    (hu : balanceOf db u = some b) (hhold : holdingOf db u c = q) :
    interleave (fun _ => ⟨u, c, q⟩) db (serialSchedule (n + 1)) =
      ((insertTransaction (updateBalance db u (fun x => x + jsMul q (toNumber p))) u c .sell q p
          (jsMul q (toNumber p))).1,
        fun j => if j = 0 then
            .done (.json 200 (.venta (some (b + jsMul q (toNumber p))) db.autoIncrement))
          else if j < n + 1 then .done (.json 400 .cantidadInsuficiente)
          else .start) := by
  induction n with
  | zero =>
    have h4 := stepAt_four (fun _ => (⟨u, c, q⟩ : SellReq)) db (fun _ => .start) 0 rfl
    simp only [] at h4
    rw [sell_noFaults_commit db u c q p b hid hq hc hu (le_of_eq hhold.symm)] at h4
    simp only [interleave, serialSchedule, List.nil_append]
    rw [h4]
    refine Prod.ext rfl ?_
    funext j
    by_cases hj : j = 0
    · simp [hj]
    · have : ¬ j < 1 := by omega
      simp [hj, this]
  | succ n ih =>
    have hzero : holdingOf
        (insertTransaction (updateBalance db u (fun x => x + jsMul q (toNumber p))) u c .sell q p
          (jsMul q (toNumber p))).1 u c = 0 := by
      rw [holdingOf_insert, holdingOf_updateBalance, hhold]; simp
    have hrej := sell_noFaults_reject
      (insertTransaction (updateBalance db u (fun x => x + jsMul q (toNumber p))) u c .sell q p (jsMul q (toNumber p))).1
      u c q hid hq (by rw [hzero]; exact hq)
    unfold interleave at ih ⊢
    rw [serialSchedule, List.foldl_append, ih]
    have h4 := stepAt_four (fun _ => (⟨u, c, q⟩ : SellReq))
      (insertTransaction (updateBalance db u (fun x => x + jsMul q (toNumber p))) u c .sell q p (jsMul q (toNumber p))).1
      (fun j => if j = 0 then
            .done (.json 200 (.venta (some (b + jsMul q (toNumber p))) db.autoIncrement))
          else if j < n + 1 then .done (.json 400 .cantidadInsuficiente)
          else .start) (n + 1) (by simp)
    simp only [] at h4
    rw [hrej] at h4
    rw [h4]
    refine Prod.ext rfl ?_
    funext j
    by_cases hj : j = n + 1
    · have : j ≠ 0 := by omega
      simp [hj]
    · by_cases h0 : j = 0
      · simp [h0]
      · by_cases hlt : j < n + 1
        · have : j < n + 1 + 1 := by omega
          simp [hj, h0, hlt, this]
        · have : ¬ j < n + 1 + 1 := by omega
          simp [hj, h0, hlt, this]

theorem buy_noFaults_commit (db : DB) (u c : Nat) (q p b : ℚ)
    (hid : c ≠ 0) (hq : 0 < q) (hc : db.cryptocurrencies c = some ⟨p⟩)
    (hu : balanceOf db u = some b) (hfunds : jsMul q (toNumber p) ≤ toNumber b) :
    buy noFaults db u c q =
      (.json 200 (.compra (jsSub (toNumber b) (jsMul q (toNumber p))) db.autoIncrement),
        (insertTransaction
          (updateBalance db u (fun _ => jsSub (toNumber b) (jsMul q (toNumber p))))
          u c .buy q p (jsMul q (toNumber p))).1) := by
  cases hrow : db.users u with
  | none => simp [balanceOf, hrow] at hu
  | some row =>
    have hb : row.balance = b := by simpa [balanceOf, hrow] using hu
    have h1 : ¬ (c = 0 ∨ q = 0 ∨ q ≤ 0) := by
      rintro (h | h | h)
      · exact hid h
      · exact (ne_of_gt hq) h
      · exact absurd hq (not_lt.mpr h)
    have hnlt : ¬ toNumber b < jsMul q (toNumber p) := not_lt.mpr hfunds
    simp [buy, noFaults, h1, hc, hrow, hb, hnlt, insertTransaction, updateBalance]

theorem buy_reject (f : Faults) (db : DB) (u c : Nat) (q p b : ℚ)
    (hf1 : f.cryptoQuery = false) (hf2 : f.userQuery = false)
    (hid : c ≠ 0) (hq : 0 < q) (hc : db.cryptocurrencies c = some ⟨p⟩)
    (hu : balanceOf db u = some b) (hlt : toNumber b < jsMul q (toNumber p)) :
    buy f db u c q = (.json 400 .saldoInsuficiente, db) := by
  cases hrow : db.users u with
  | none => simp [balanceOf, hrow] at hu
  | some row =>
    have hb : row.balance = b := by simpa [balanceOf, hrow] using hu
    have h1 : ¬ (c = 0 ∨ q = 0 ∨ q ≤ 0) := by
      rintro (h | h | h)
      · exact hid h
      · exact (ne_of_gt hq) h
      · exact absurd hq (not_lt.mpr h)
    simp [buy, hf1, hf2, h1, hc, hrow, hb, hlt]

/-- A sell that passes validation and meets no fault up to the commit: the
response carries the balance read after the commit unless that read fails. -/
theorem sell_commit_eq (f : Faults) (db : DB) (u c : Nat) (q p b : ℚ)
    (hf3 : f.portfolioQuery = false) (hf4 : f.beginTransaction = false)
    (hf5 : f.updateUser = false) (hf6 : f.insertTransaction = false)
    (hf7 : f.commit = false)
    (hid : c ≠ 0) (hq : 0 < q) (hc : db.cryptocurrencies c = some ⟨p⟩)
    (hu : balanceOf db u = some b) (hhold : q ≤ holdingOf db u c) :
    sell f db u c q =
      (.json 200 (.venta (if f.balanceQuery then none else some (b + jsMul q (toNumber p)))
          db.autoIncrement),
        (insertTransaction (updateBalance db u (fun x => x + jsMul q (toNumber p))) u c
          .sell q p (jsMul q (toNumber p))).1) := by
  obtain ⟨f1, f2, f3, f4, f5, f6, f7, f8⟩ := f
  simp only at hf3 hf4 hf5 hf6 hf7
  subst hf3 hf4 hf5 hf6 hf7
  cases hrow : db.users u with
  | none => simp [balanceOf, hrow] at hu
  | some row =>
    have hb : row.balance = b := by simpa [balanceOf, hrow] using hu
    have h1 : ¬ (c = 0 ∨ q = 0 ∨ q ≤ 0) := by
      rintro (h | h | h)
      · exact hid h
      · exact (ne_of_gt hq) h
      · exact absurd hq (not_lt.mpr h)
    have hne : (rowsOf db u c).isEmpty = false :=
      rowsOf_ne_nil_of_holding_pos (lt_of_lt_of_le hq hhold)
    have hnlt : ¬ holdingOf db u c < q := not_lt.mpr hhold
    cases f8 <;>
      simp [sell, portfolioQuery, h1, hc, hne, hnlt, hrow, hb, insertTransaction,
        updateBalance]

/-! ## Conservation and rejection -/

/-- C1 as stated fails: with balance 0.30, price 0.10 and quantity 3 the exact
cost `3 * 0.10` is not above the balance, yet the handler computes the product in
doubles, `0.30000000000000004`, finds it above the double of `0.30`, and answers
400 'Saldo insuficiente' leaving the store as it was. -/
theorem buy_exact_funds_rejected :
    dimeDB.cryptocurrencies 1 = some ⟨1 / 10⟩ ∧ balanceOf dimeDB 1 = some (3 / 10) ∧
      (3 : ℚ) * (1 / 10) ≤ 3 / 10 ∧
      buy noFaults dimeDB 1 1 3 = (.json 400 .saldoInsuficiente, dimeDB) ∧
      kindOf (buy noFaults dimeDB 1 1 3).1 = .InsufficientFunds := by
  have h : buy noFaults dimeDB 1 1 3 = (.json 400 .saldoInsuficiente, dimeDB) :=
    buy_reject noFaults dimeDB 1 1 3 (1 / 10) (3 / 10) rfl rfl (by decide) (by norm_num)
      rfl rfl (by rw [toNumber_three_tenths, jsMul_3_tenth]; norm_num)
  refine ⟨rfl, rfl, by norm_num, h, ?_⟩
  rw [h]; rfl

/-- C1 amended: a buy of quantity `q > 0` of a catalogued crypto with price `p`,
by a user with balance `b`, whose cost in doubles `jsMul q (toNumber p)` is at
most the balance read as a double, succeeds; the new balance is the double
difference of the two, the holding grows by `q`, and exactly the record
`(buy, q, p, cost)` with that cost is appended to the ledger. -/
theorem buy_conservation (db : DB) (user_id crypto_id : Nat) (q p b : ℚ)
    (hid : crypto_id ≠ 0) (hq : 0 < q)
    (hc : db.cryptocurrencies crypto_id = some ⟨p⟩)
    (hu : balanceOf db user_id = some b)
    (hfunds : jsMul q (toNumber p) ≤ toNumber b) :
    (buy noFaults db user_id crypto_id q).1
        = .json 200
          (.compra (jsSub (toNumber b) (jsMul q (toNumber p))) db.autoIncrement) ∧
      kindOf (buy noFaults db user_id crypto_id q).1 = .Success ∧
      balanceOf (buy noFaults db user_id crypto_id q).2 user_id
        = some (jsSub (toNumber b) (jsMul q (toNumber p))) ∧
      holdingOf (buy noFaults db user_id crypto_id q).2 user_id crypto_id
        = holdingOf db user_id crypto_id + q ∧
      (buy noFaults db user_id crypto_id q).2.transactions
        = db.transactions ++
          [⟨db.autoIncrement, user_id, crypto_id, .buy, q, p, jsMul q (toNumber p)⟩] := by
  rw [buy_noFaults_commit db user_id crypto_id q p b hid hq hc hu hfunds]
  cases hrow : db.users user_id with
  | none => simp [balanceOf, hrow] at hu
  | some u =>
    refine ⟨rfl, rfl, ?_, ?_, ?_⟩
    · simp [balanceOf, insertTransaction, updateBalance, hrow]
    · rw [holdingOf_insert, holdingOf_updateBalance]; simp
    · simp [insertTransaction, updateBalance]

/-- Witness of C1 amended: balance 1000.00, buying 2 units at 100.00 gives
balance 800.00, holding 2 and one ledger record. -/
theorem buy_conservation_witness :
    (buy noFaults exampleDB 1 1 2).1 = .json 200 (.compra 800 1) ∧
      balanceOf (buy noFaults exampleDB 1 1 2).2 1 = some 800 ∧
      holdingOf (buy noFaults exampleDB 1 1 2).2 1 1 = 2 ∧
      (buy noFaults exampleDB 1 1 2).2.transactions = [⟨1, 1, 1, .buy, 2, 100, 200⟩] := by
  have h := buy_conservation exampleDB 1 1 2 100 1000 (by decide) (by norm_num) rfl rfl
    (by rw [jsMul_2_100, toNumber_1000]; norm_num)
  rw [jsMul_2_100, toNumber_1000, jsSub_1000_200] at h
  obtain ⟨h1, -, h2, h4, h5⟩ := h
  refine ⟨h1, h2, ?_, ?_⟩
  · rw [h4]; norm_num [holdingOf, rowsOf, exampleDB]
  · rw [h5]; rfl

/-- C2 as stated fails: user 1 holds 3 units of crypto 1 priced 0.10 and sells
them; the handler credits and records the double product `3 * 0.10`, which is
`0.30000000000000004`, not `0.30`. -/
theorem sell_credit_is_double_product :
    dimeHoldingDB.cryptocurrencies 1 = some ⟨1 / 10⟩ ∧
      balanceOf dimeHoldingDB 1 = some 1 ∧
      (3 : ℚ) ≤ holdingOf dimeHoldingDB 1 1 ∧
      kindOf (sell noFaults dimeHoldingDB 1 1 3).1 = .Success ∧
      balanceOf (sell noFaults dimeHoldingDB 1 1 3).2 1
        = some (1 + 1351079888211149 / 4503599627370496) ∧
      (1 + 1351079888211149 / 4503599627370496 : ℚ) - 1 ≠ 3 * (1 / 10) ∧
      (sell noFaults dimeHoldingDB 1 1 3).2.transactions
        = dimeHoldingDB.transactions ++
          [⟨2, 1, 1, .sell, 3, 1 / 10, 1351079888211149 / 4503599627370496⟩] := by
  have hh : (3 : ℚ) ≤ holdingOf dimeHoldingDB 1 1 := by
    norm_num [holdingOf, rowsOf, dimeHoldingDB, signedAmount]
  have h := sell_noFaults_commit dimeHoldingDB 1 1 3 (1 / 10) 1 (by decide) (by norm_num)
    rfl rfl hh
  rw [jsMul_3_tenth] at h
  rw [h]
  refine ⟨rfl, rfl, hh, rfl, ?_, by norm_num, ?_⟩
  · simp [balanceOf, insertTransaction, updateBalance, dimeHoldingDB]
  · simp [insertTransaction, updateBalance, dimeHoldingDB]

/-- C2 amended: a sell of quantity `q > 0` of a catalogued crypto with price `p`,
by a user with balance `b` whose holding is at least `q`, succeeds; the balance
grows by the value in doubles `jsMul q (toNumber p)`, the holding drops by `q`,
and exactly the record `(sell, q, p, value)` with that value is appended to the
ledger. -/
theorem sell_conservation (db : DB) (user_id crypto_id : Nat) (q p b : ℚ)
    (hid : crypto_id ≠ 0) (hq : 0 < q)
    (hc : db.cryptocurrencies crypto_id = some ⟨p⟩)
    (hu : balanceOf db user_id = some b)
    (hhold : q ≤ holdingOf db user_id crypto_id) :
    (sell noFaults db user_id crypto_id q).1
        = .json 200 (.venta (some (b + jsMul q (toNumber p))) db.autoIncrement) ∧
      kindOf (sell noFaults db user_id crypto_id q).1 = .Success ∧
      (∃ b1, balanceOf (sell noFaults db user_id crypto_id q).2 user_id = some b1 ∧
        b1 - b = jsMul q (toNumber p)) ∧
      holdingOf (sell noFaults db user_id crypto_id q).2 user_id crypto_id
        = holdingOf db user_id crypto_id - q ∧
      (sell noFaults db user_id crypto_id q).2.transactions
        = db.transactions ++
          [⟨db.autoIncrement, user_id, crypto_id, .sell, q, p, jsMul q (toNumber p)⟩] := by
  rw [sell_noFaults_commit db user_id crypto_id q p b hid hq hc hu hhold]
  cases hrow : db.users user_id with
  | none => simp [balanceOf, hrow] at hu
  | some u =>
    have hb : u.balance = b := by simpa [balanceOf, hrow] using hu
    refine ⟨rfl, rfl, ⟨b + jsMul q (toNumber p), ?_, by ring⟩, ?_, ?_⟩
    · simp [balanceOf, insertTransaction, updateBalance, hrow, hb]
    · rw [holdingOf_insert, holdingOf_updateBalance]; simp; ring
    · simp [insertTransaction, updateBalance]

/-- Witness of C2 amended: after the buy of 2 units, selling 1 unit at 150.00
takes the balance from 800.00 to 950.00, the holding to 1 and the ledger to two
records. -/
theorem sell_conservation_witness :
    (sell noFaults exampleDB2 1 1 1).1 = .json 200 (.venta (some 950) 2) ∧
      balanceOf (sell noFaults exampleDB2 1 1 1).2 1 = some 950 ∧
      holdingOf (sell noFaults exampleDB2 1 1 1).2 1 1 = 1 ∧
      (sell noFaults exampleDB2 1 1 1).2.transactions
        = [⟨1, 1, 1, .buy, 2, 100, 200⟩, ⟨2, 1, 1, .sell, 1, 150, 150⟩] := by
  have h := sell_conservation exampleDB2 1 1 1 150 800 (by decide) (by norm_num) rfl rfl
    (by norm_num [holdingOf, rowsOf, exampleDB2, signedAmount])
  rw [jsMul_1_150] at h
  obtain ⟨h1, -, ⟨b1, h2, h3⟩, h4, h5⟩ := h
  have hb1 : b1 = 950 := by linarith
  subst hb1
  refine ⟨?_, h2, ?_, ?_⟩
  · rw [h1]; norm_num [exampleDB2]
  · rw [h4]; norm_num [holdingOf, rowsOf, exampleDB2, signedAmount]
  · rw [h5]; norm_num [exampleDB2]

/-- C3 as stated fails: with balance 2.10, price 0.70 and quantity
`3.0000000000000004` the exact cost is strictly above the balance, yet the
product in doubles is the double of `2.10`, the comparison `2.1 < 2.1` is false,
and the buy commits: it answers success, sets the balance to 0 and appends the
buy record. -/
theorem buy_above_balance_commits :
    edgeDB.cryptocurrencies 1 = some ⟨7 / 10⟩ ∧ balanceOf edgeDB 1 = some (21 / 10) ∧
      (21 / 10 : ℚ) < threePlusUlp * (7 / 10) ∧
      (buy noFaults edgeDB 1 1 threePlusUlp).1 = .json 200 (.compra 0 1) ∧
      kindOf (buy noFaults edgeDB 1 1 threePlusUlp).1 = .Success ∧
      balanceOf (buy noFaults edgeDB 1 1 threePlusUlp).2 1 = some 0 ∧
      (buy noFaults edgeDB 1 1 threePlusUlp).2.transactions
        = [⟨1, 1, 1, .buy, threePlusUlp, 7 / 10,
            4728779608739021 / 2251799813685248⟩] := by
  have h := buy_noFaults_commit edgeDB 1 1 threePlusUlp (7 / 10) (21 / 10) (by decide)
    (by norm_num [threePlusUlp]) rfl rfl
    (by rw [toNumber_twentyone_tenths, jsMul_threePlusUlp_seven_tenths])
  rw [toNumber_twentyone_tenths, jsMul_threePlusUlp_seven_tenths, jsSub, sub_self,
    roundDouble_zero] at h
  rw [h]
  refine ⟨rfl, rfl, by norm_num [threePlusUlp], rfl, rfl, ?_, ?_⟩
  · simp [balanceOf, insertTransaction, updateBalance, edgeDB]
  · simp [insertTransaction, updateBalance, edgeDB]

/-- C3 amended: a buy by an existing user with balance `b` of quantity `q > 0`
of a catalogued crypto with price `p`, whose cost in doubles
`jsMul q (toNumber p)` is strictly above the balance read as a double, returns
`InsufficientFunds` (status 400, 'Saldo insuficiente') and leaves the whole store
as it was. -/
theorem buy_insufficient_funds (f : Faults) (db : DB) (user_id crypto_id : Nat) (q p b : ℚ)
    (hf1 : f.cryptoQuery = false) (hf2 : f.userQuery = false)
    (hid : crypto_id ≠ 0) (hq : 0 < q)
    (hc : db.cryptocurrencies crypto_id = some ⟨p⟩)
    (hu : balanceOf db user_id = some b)
    (hlt : toNumber b < jsMul q (toNumber p)) :
    buy f db user_id crypto_id q = (.json 400 .saldoInsuficiente, db) ∧
      kindOf (buy f db user_id crypto_id q).1 = .InsufficientFunds := by
  rw [buy_reject f db user_id crypto_id q p b hf1 hf2 hid hq hc hu hlt]
  exact ⟨rfl, rfl⟩

/-- Witness of C3 amended: balance 50.00, buying 1 unit at 100.00 fails with
`InsufficientFunds`; the store (balance 50.00, no ledger record) is unchanged. -/
theorem buy_insufficient_funds_witness :
    buy noFaults poorDB 1 1 1 = (.json 400 .saldoInsuficiente, poorDB) ∧
      kindOf (buy noFaults poorDB 1 1 1).1 = .InsufficientFunds ∧
      balanceOf poorDB 1 = some 50 ∧ poorDB.transactions = [] :=
  ⟨(buy_insufficient_funds noFaults poorDB 1 1 1 100 50 rfl rfl (by decide) (by norm_num)
      rfl rfl (by rw [toNumber_50, jsMul_1_100]; norm_num)).1,
    (buy_insufficient_funds noFaults poorDB 1 1 1 100 50 rfl rfl (by decide) (by norm_num)
      rfl rfl (by rw [toNumber_50, jsMul_1_100]; norm_num)).2, rfl, rfl⟩

/-- C4: a sell of quantity `q > 0` strictly above the holding of the user in that
crypto (no record at all included, the holding then being 0) returns
`InsufficientHolding` (status 400) and leaves the whole store as it was. -/
theorem sell_insufficient_holding (f : Faults) (db : DB) (user_id crypto_id : Nat) (q : ℚ)
    (hf : f.portfolioQuery = false)
    (hid : crypto_id ≠ 0) (hq : 0 < q)
    (hlt : holdingOf db user_id crypto_id < q) :
    sell f db user_id crypto_id q = (.json 400 .cantidadInsuficiente, db) ∧
      kindOf (sell f db user_id crypto_id q).1 = .InsufficientHolding := by
  have h1 : ¬ (crypto_id = 0 ∨ q = 0 ∨ q ≤ 0) := by
    rintro (h | h | h)
    · exact hid h
    · exact (ne_of_gt hq) h
    · exact absurd hq (not_lt.mpr h)
  have hsell : sell f db user_id crypto_id q = (.json 400 .cantidadInsuficiente, db) := by
    unfold sell
    rw [if_neg h1, hf]
    simp only [Bool.false_eq_true, if_false]
    unfold portfolioQuery
    cases hc : db.cryptocurrencies crypto_id with
    | none => rfl
    | some c =>
      cases hr : (rowsOf db user_id crypto_id).isEmpty with
      | true => simp
      | false => simp [hlt]
  rw [hsell]
  exact ⟨rfl, rfl⟩

/-- Witness of C4: user 1 holds 2 units of crypto 1 and asks to sell 3; user 1
of the empty ledger asks to sell 1. -/
theorem sell_insufficient_holding_witness :
    (sell noFaults exampleDB2 1 1 3 = (.json 400 .cantidadInsuficiente, exampleDB2) ∧
      kindOf (sell noFaults exampleDB2 1 1 3).1 = .InsufficientHolding) ∧
    (sell noFaults exampleDB 1 1 1 = (.json 400 .cantidadInsuficiente, exampleDB) ∧
      kindOf (sell noFaults exampleDB 1 1 1).1 = .InsufficientHolding) :=
  ⟨sell_insufficient_holding noFaults exampleDB2 1 1 3 rfl (by decide) (by norm_num)
      (by norm_num [holdingOf, rowsOf, exampleDB2, signedAmount]),
    sell_insufficient_holding noFaults exampleDB 1 1 1 rfl (by decide) (by norm_num)
      (by norm_num [holdingOf, rowsOf, exampleDB])⟩

/-! ## Reachable-state invariants -/

/-- C5: from a store in which every balance is non-negative and every catalog
price is positive, after any finite sequence of buy and sell requests (arbitrary
users, crypto ids, quantities and storage faults, each run to completion) and
positive price changes between them, every balance is non-negative. -/
theorem balance_nonneg_invariant (db : DB) (es : List Event)
    (hb : BalancesNonneg db) (hp : PricesPositive db) (hes : PositivePriceChanges es) :
    ∀ u b, balanceOf (run db es) u = some b → 0 ≤ b :=
  (run_preserves_balances es db hb hp hes).1

/-- C6: from an empty ledger, after any finite sequence of buy and sell requests
(and price changes), each run to completion, the derived holding of every
(user, crypto) pair, the sum of its buy quantities minus the sum of its sell
quantities, which is also the aggregate the sell handler reads, is
non-negative. -/
theorem holding_nonneg_invariant (db : DB) (es : List Event)
    (hempty : db.transactions = []) :
    ∀ u c, 0 ≤ holdingSpec (run db es) u c ∧ 0 ≤ holdingOf (run db es) u c := by
  have h : HoldingsNonneg (run db es) := by
    apply run_preserves_holdings es db
    intro u c
    simp [holdingOf, rowsOf, hempty]
  intro u c
  exact ⟨by rw [← holdingOf_eq_holdingSpec]; exact h u c, h u c⟩

theorem exampleDB_balancesNonneg : BalancesNonneg exampleDB := by
  intro u b h
  unfold balanceOf exampleDB at h
  by_cases hu : u = 1
  · simp [hu] at h; rw [← h]; norm_num
  · simp [hu] at h

theorem exampleDB_pricesPositive : PricesPositive exampleDB := by
  intro c row h
  unfold exampleDB at h
  by_cases hc : c = 1
  · simp [hc] at h; rw [← h]; norm_num
  · simp [hc] at h

theorem exampleEvents_positive : PositivePriceChanges exampleEvents := by
  intro c p h
  simp [exampleEvents] at h
  rw [h.2]; norm_num

/-- Witness of C5 on the example store and the example sequence of events. -/
theorem balance_nonneg_invariant_witness :
    BalancesNonneg exampleDB ∧ PricesPositive exampleDB ∧
      PositivePriceChanges exampleEvents ∧
      ∀ u b, balanceOf (run exampleDB exampleEvents) u = some b → 0 ≤ b :=
  ⟨exampleDB_balancesNonneg, exampleDB_pricesPositive, exampleEvents_positive,
    balance_nonneg_invariant exampleDB exampleEvents exampleDB_balancesNonneg
      exampleDB_pricesPositive exampleEvents_positive⟩

/-- Witness of C6 on the example store, whose ledger is empty, and the example
sequence of events. -/
theorem holding_nonneg_invariant_witness :
    exampleDB.transactions = [] ∧
      ∀ u c, 0 ≤ holdingSpec (run exampleDB exampleEvents) u c ∧
        0 ≤ holdingOf (run exampleDB exampleEvents) u c :=
  ⟨rfl, holding_nonneg_invariant exampleDB exampleEvents rfl⟩

/-! ## Storage faults -/

/-- C7: for a buy or a sell that passes validation (its fault-free run is not
rejected), a storage fault at one of the commit sub-steps (begin transaction,
balance update, ledger insert, commit) makes the handler return `StorageFailure`
(status 500) and leaves the three tables as they were: neither the balance write
nor the ledger row survives alone. -/
theorem commit_atomicity (f : Faults) (db : DB) (u c : Nat) (a : ℚ)
    (hr1 : f.cryptoQuery = false) (hr2 : f.userQuery = false)
    (hr3 : f.portfolioQuery = false)
    (hfault : f.beginTransaction = true ∨ f.updateUser = true ∨
      f.insertTransaction = true ∨ f.commit = true) :
    (rejected (buy noFaults db u c a).1 = false →
      (buy f db u c a).1 = .json 500 .errMessage ∧
        kindOf (buy f db u c a).1 = .StorageFailure ∧ SameTables (buy f db u c a).2 db) ∧
    (rejected (sell noFaults db u c a).1 = false →
      (sell f db u c a).1 = .json 500 .errMessage ∧
        kindOf (sell f db u c a).1 = .StorageFailure ∧
        SameTables (sell f db u c a).2 db) := by
  obtain ⟨f1, f2, f3, f4, f5, f6, f7, f8⟩ := f
  simp only at hr1 hr2 hr3 hfault
  subst hr1 hr2 hr3
  constructor
  · intro hv
    by_cases h1 : c = 0 ∨ a = 0 ∨ a ≤ 0
    · simp [buy, h1, rejected, kindOf] at hv
    have hc0 : c ≠ 0 := fun h => h1 (Or.inl h)
    have h1a : ¬ (a = 0 ∨ a ≤ 0) := fun h => h1 (Or.inr h)
    cases hc : db.cryptocurrencies c with
    | none => simp [buy, h1, hc, noFaults, rejected, kindOf] at hv
    | some crypto =>
      cases hu : db.users u with
      | none => simp [buy, h1, hc, hu, noFaults, rejected, kindOf] at hv
      | some row =>
        by_cases h4 : toNumber row.balance < jsMul a (toNumber crypto.current_price)
        · simp [buy, h1, hc, hu, h4, noFaults, rejected, kindOf] at hv
        · cases f4 <;> cases f5 <;> cases f6 <;> cases f7 <;>
            simp [buy, h1a, hc0, hc, hu, h4, kindOf, sameTables_refl, sameTables_rollback]
              at hfault ⊢
  · intro hv
    by_cases h1 : c = 0 ∨ a = 0 ∨ a ≤ 0
    · simp [sell, h1, rejected, kindOf] at hv
    have hc0 : c ≠ 0 := fun h => h1 (Or.inl h)
    have h1a : ¬ (a = 0 ∨ a ≤ 0) := fun h => h1 (Or.inr h)
    cases hc : db.cryptocurrencies c with
    | none => simp [sell, portfolioQuery, h1, hc, noFaults, rejected, kindOf] at hv
    | some crypto =>
      cases hr : (rowsOf db u c).isEmpty with
      | true => simp [sell, portfolioQuery, h1, hc, hr, noFaults, rejected, kindOf] at hv
      | false =>
        by_cases h4 : holdingOf db u c < a
        · simp [sell, portfolioQuery, h1, hc, hr, h4, noFaults, rejected, kindOf] at hv
        · cases f4 <;> cases f5 <;> cases f6 <;> cases f7 <;>
            simp [sell, portfolioQuery, h1a, hc0, hc, hr, h4, kindOf, sameTables_refl,
              sameTables_rollback] at hfault ⊢

/-- Witness of C7: in the store where user 1 has balance 800.00 and holds 2
units of crypto 1 priced 150.00, a buy and a sell of 1 unit both pass validation;
with the ledger insert failing, both return status 500 and change no table. -/
theorem commit_atomicity_witness :
    ((buy faultAtInsert exampleDB2 1 1 1).1 = .json 500 .errMessage ∧
      kindOf (buy faultAtInsert exampleDB2 1 1 1).1 = .StorageFailure ∧
      SameTables (buy faultAtInsert exampleDB2 1 1 1).2 exampleDB2) ∧
    ((sell faultAtInsert exampleDB2 1 1 1).1 = .json 500 .errMessage ∧
      kindOf (sell faultAtInsert exampleDB2 1 1 1).1 = .StorageFailure ∧
      SameTables (sell faultAtInsert exampleDB2 1 1 1).2 exampleDB2) :=
  ⟨(commit_atomicity faultAtInsert exampleDB2 1 1 1 rfl rfl rfl
      (Or.inr (Or.inr (Or.inl rfl)))).1
      (by
        rw [buy_noFaults_commit exampleDB2 1 1 1 150 800 (by decide) (by norm_num) rfl rfl
          (by rw [jsMul_1_150, toNumber_800]; norm_num)]
        rfl),
    (commit_atomicity faultAtInsert exampleDB2 1 1 1 rfl rfl rfl
      (Or.inr (Or.inr (Or.inl rfl)))).2
      (by
        rw [sell_noFaults_commit exampleDB2 1 1 1 150 800 (by decide) (by norm_num) rfl rfl
          (by norm_num [holdingOf, rowsOf, exampleDB2, signedAmount])]
        rfl)⟩

/-! ## Unknown crypto id -/

/-- C8, the code at a crypto id that is not catalogued: in the example store,
whose catalog holds crypto 1 only, user 1 asking to sell 1 unit of crypto 7 gets
status 400 'No tienes suficiente cantidad de esta criptomoneda'
(`InsufficientHolding`), while the same request to buy gets status 404
'Criptomoneda no encontrada' (`NotFound`); the store is unchanged by both. -/
theorem sell_unknown_crypto_is_insufficient_holding :
    exampleDB.cryptocurrencies 7 = none ∧
      sell noFaults exampleDB 1 7 1 = (.json 400 .cantidadInsuficiente, exampleDB) ∧
      kindOf (sell noFaults exampleDB 1 7 1).1 = .InsufficientHolding ∧
      kindOf (sell noFaults exampleDB 1 7 1).1 ≠ .NotFound ∧
      buy noFaults exampleDB 1 7 1 = (.json 404 .criptomonedaNoEncontrada, exampleDB) ∧
      kindOf (buy noFaults exampleDB 1 7 1).1 = .NotFound := by
  have hs : sell noFaults exampleDB 1 7 1 = (.json 400 .cantidadInsuficiente, exampleDB) := by
    norm_num [sell, portfolioQuery, noFaults, exampleDB]
  have hb : buy noFaults exampleDB 1 7 1 = (.json 404 .criptomonedaNoEncontrada, exampleDB) := by
    norm_num [buy, noFaults, exampleDB]
  refine ⟨rfl, hs, ?_, ?_, hb, ?_⟩
  · rw [hs]; rfl
  · rw [hs]; decide
  · rw [hb]; rfl

/-! ## The result of a committed sell -/

/-- C9 as stated fails: in the store where user 1 has balance 800.00 and holds 2
units of crypto 1 priced 150.00, a sell of 1 unit whose balance read after the
commit fails commits the sale (the ledger has the sell record, the balance is
950.00) and reports success, status 200, with the transaction id and without a
new balance. -/
theorem sell_reports_success_without_balance :
    (sell faultAtBalanceQuery exampleDB2 1 1 1).1 = .json 200 (.venta none 2) ∧
      kindOf (sell faultAtBalanceQuery exampleDB2 1 1 1).1 = .Success ∧
      (sell faultAtBalanceQuery exampleDB2 1 1 1).2.transactions
        = [⟨1, 1, 1, .buy, 2, 100, 200⟩, ⟨2, 1, 1, .sell, 1, 150, 150⟩] ∧
      balanceOf (sell faultAtBalanceQuery exampleDB2 1 1 1).2 1 = some 950 := by
  have h := sell_commit_eq faultAtBalanceQuery exampleDB2 1 1 1 150 800 rfl rfl rfl rfl rfl
    (by decide) (by norm_num) rfl rfl
    (by norm_num [holdingOf, rowsOf, exampleDB2, signedAmount])
  rw [jsMul_1_150] at h
  rw [h]
  refine ⟨rfl, rfl, ?_, ?_⟩
  · simp [insertTransaction, updateBalance, exampleDB2]
  · norm_num [balanceOf, insertTransaction, updateBalance, exampleDB2]

/-- C9 amended: a sell by an existing user with balance `b` that passes
validation, runs with no statement of another request in between, and meets no
fault up to its commit returns status 200 with the id of the appended ledger
record; the store then holds the balance `b + jsMul q (toNumber p)`, the balance
before plus the value of the sale in doubles, and the response carries that
balance when the balance read after the commit succeeds, and no balance when
that read fails. -/
theorem sell_committed_result (f : Faults) (db : DB) (user_id crypto_id : Nat) (q p b : ℚ)
    (hf3 : f.portfolioQuery = false) (hf4 : f.beginTransaction = false)
    (hf5 : f.updateUser = false) (hf6 : f.insertTransaction = false)
    (hf7 : f.commit = false)
    (hid : crypto_id ≠ 0) (hq : 0 < q)
    (hc : db.cryptocurrencies crypto_id = some ⟨p⟩)
    (hu : balanceOf db user_id = some b)
    (hhold : q ≤ holdingOf db user_id crypto_id) :
    (sell f db user_id crypto_id q).1
        = .json 200 (.venta (if f.balanceQuery then none
            else some (b + jsMul q (toNumber p))) db.autoIncrement) ∧
      kindOf (sell f db user_id crypto_id q).1 = .Success ∧
      (sell f db user_id crypto_id q).2.transactions
        = db.transactions ++
          [⟨db.autoIncrement, user_id, crypto_id, .sell, q, p, jsMul q (toNumber p)⟩] ∧
      balanceOf (sell f db user_id crypto_id q).2 user_id
        = some (b + jsMul q (toNumber p)) := by
  rw [sell_commit_eq f db user_id crypto_id q p b hf3 hf4 hf5 hf6 hf7 hid hq hc hu hhold]
  cases hrow : db.users user_id with
  | none => simp [balanceOf, hrow] at hu
  | some u =>
    have hb : u.balance = b := by simpa [balanceOf, hrow] using hu
    refine ⟨rfl, rfl, ?_, ?_⟩
    · simp [insertTransaction, updateBalance]
    · simp [balanceOf, insertTransaction, updateBalance, hrow, hb]

/-- Witness of C9 amended: the sale of 1 unit at 150.00 from balance 800.00 with
the balance read failing, and the same sale with no fault. -/
theorem sell_committed_result_witness :
    (sell faultAtBalanceQuery exampleDB2 1 1 1).1 = .json 200 (.venta none 2) ∧
      (sell noFaults exampleDB2 1 1 1).1 = .json 200 (.venta (some (800 + 150)) 2) ∧
      balanceOf (sell noFaults exampleDB2 1 1 1).2 1 = some (800 + 150) := by
  have h1 := sell_committed_result faultAtBalanceQuery exampleDB2 1 1 1 150 800 rfl rfl rfl
    rfl rfl (by decide) (by norm_num) rfl rfl
    (by norm_num [holdingOf, rowsOf, exampleDB2, signedAmount])
  have h2 := sell_committed_result noFaults exampleDB2 1 1 1 150 800 rfl rfl rfl rfl rfl
    (by decide) (by norm_num) rfl rfl
    (by norm_num [holdingOf, rowsOf, exampleDB2, signedAmount])
  rw [jsMul_1_150] at h2
  exact ⟨h1.1, h2.1, h2.2.2.2⟩

/-! ## Concurrent sells -/

/-- C10 as stated fails: user 1 holds exactly 2 units of crypto 1 and two
requests each ask to sell 2.  When the two requests alternate their storage
calls (both holding reads run before either balance update), both pass the
holding check, both report success, and the holding ends at -2. -/
theorem concurrent_sells_oversell :
    holdingOf holdingDB 1 1 = 2 ∧
      (interleave (fun _ => ⟨1, 1, 2⟩) holdingDB [0, 1, 0, 1, 0, 1, 0, 1]).2 0
        = .done (.json 200 (.venta (some 1400) 2)) ∧
      (interleave (fun _ => ⟨1, 1, 2⟩) holdingDB [0, 1, 0, 1, 0, 1, 0, 1]).2 1
        = .done (.json 200 (.venta (some 1400) 3)) ∧
      holdingOf (interleave (fun _ => ⟨1, 1, 2⟩) holdingDB [0, 1, 0, 1, 0, 1, 0, 1]).1 1 1
        = -2 := by
  refine ⟨?_, ?_, ?_, ?_⟩ <;>
    norm_num [interleave, stepAt, sellStep, portfolioQuery, holdingOf, rowsOf, signedAmount,
      holdingDB, insertTransaction, updateBalance, jsMul_2_150,
      (by decide : ¬ (TxType.sell = TxType.buy))]

/-- C10 amended: when `N ≥ 1` sell requests for the same user and crypto, each
asking for quantity `q` while the holding is exactly `q`, are served one after
the other (the storage calls of a request run with no call of another request in
between), the first succeeds, the other `N - 1` return `InsufficientHolding`,
and the resulting holding is 0. -/
theorem serial_sells_one_success (N : Nat) (db : DB) (u c : Nat) (q p b : ℚ)
    (hN : 1 ≤ N) (hid : c ≠ 0) (hq : 0 < q)
    (hc : db.cryptocurrencies c = some ⟨p⟩)
    (hu : balanceOf db u = some b) (hhold : holdingOf db u c = q) :
    (interleave (fun _ => ⟨u, c, q⟩) db (serialSchedule N)).2 0
        = .done (.json 200 (.venta (some (b + jsMul q (toNumber p))) db.autoIncrement)) ∧
      (∀ i, 1 ≤ i → i < N →
        (interleave (fun _ => ⟨u, c, q⟩) db (serialSchedule N)).2 i
          = .done (.json 400 .cantidadInsuficiente)) ∧
      holdingOf (interleave (fun _ => ⟨u, c, q⟩) db (serialSchedule N)).1 u c = 0 := by
  obtain ⟨n, rfl⟩ : ∃ n, N = n + 1 := ⟨N - 1, by omega⟩
  rw [serial_sells_state n db u c q p b hid hq hc hu hhold]
  refine ⟨by simp, ?_, ?_⟩
  · intro i h1 h2
    have : i ≠ 0 := by omega
    simp [this, h2]
  · simp only
    rw [holdingOf_insert, holdingOf_updateBalance, hhold]; simp

/-- Witness of C10 amended: three requests to sell 2 units of crypto 1 by user 1,
who holds exactly 2, served one after the other. -/
theorem serial_sells_one_success_witness :
    (interleave (fun _ => ⟨1, 1, 2⟩) holdingDB (serialSchedule 3)).2 0
        = .done (.json 200 (.venta (some (800 + 300)) 2)) ∧
      (∀ i, 1 ≤ i → i < 3 →
        (interleave (fun _ => ⟨1, 1, 2⟩) holdingDB (serialSchedule 3)).2 i
          = .done (.json 400 .cantidadInsuficiente)) ∧
      holdingOf (interleave (fun _ => ⟨1, 1, 2⟩) holdingDB (serialSchedule 3)).1 1 1 = 0 := by
  have h := serial_sells_one_success 3 holdingDB 1 1 2 150 800 (by decide) (by decide)
    (by norm_num) rfl rfl (by norm_num [holdingOf, rowsOf, holdingDB, signedAmount])
  rw [jsMul_2_150] at h
  exact h

end CryptoLedger
